import Mathlib

/-!
Verification development for the `xmc-marketplace-publishingstatus` content
resolution pipeline. The TypeScript sources (`utils/graphqlQueries.ts` and
`hooks/useItemInformation.ts`) are shallowly embedded as executable Lean
functions: JavaScript objects become association lists with last-write
update semantics, network endpoints become explicit behaviour parameters
(oracles), exceptions become `Except`/outcome values, and React state
updates become explicit state transformers.
-/

namespace PublishingStatus

/-! ## JavaScript-flavoured string and object helpers -/

/-- `/[{}]/g` removal followed by `.toUpperCase()`: the canonical identifier
form used throughout the pipeline (brace-stripped, uppercased). -/
def canonGuid (s : String) : String :=
  String.mk ((s.data.filter (fun c => ¬ (c = '\x7b' ∨ c = '\x7d'))).map Char.toUpper)

/-- JS `x || d` for an optional string `x`: missing or empty falls back to `d`. -/
def jsOrString (o : Option String) (d : String) : String :=
  match o with
  | some s => if s = "" then d else s
  | none => d

/-- JS `x || undefined` for an optional string: the empty string collapses to
`undefined`. -/
def jsOrUndef (o : Option String) : Option String :=
  match o with
  | some s => if s = "" then none else some s
  | none => none

/-- Remove the first occurrence of `pat` from `cs` (JS
`String.prototype.replace` with a plain-string pattern and empty
replacement). -/
def removeFirstOcc : List Char → List Char → List Char
  | [], _ => []
  | c :: cs, pat =>
    if List.isPrefixOf pat (c :: cs) then (c :: cs).drop pat.length
    else c :: removeFirstOcc cs pat

/-- JS `s.replace(pat, '')` for a plain-string `pat` (first occurrence only). -/
def replaceFirst (s pat : String) : String :=
  String.mk (removeFirstOcc s.data pat.data)

/-- Does `pat` occur as a contiguous run inside `cs`? -/
def hasSubstr (pat : List Char) : List Char → Bool
  | [] => List.isPrefixOf pat []
  | c :: cs => List.isPrefixOf pat (c :: cs) || hasSubstr pat cs

/-- JS `s.includes(pat)`. -/
def jsIncludes (s pat : String) : Bool :=
  hasSubstr pat.data s.data

/-- JS `s.startsWith(pre)`. -/
def jsStartsWith (s pre : String) : Bool :=
  List.isPrefixOf pre.data s.data

/-- Lookup in a JS-object model (association list keyed by strings). -/
def alistGet {β : Type} : List (String × β) → String → Option β
  | [], _ => none
  | p :: rest, k => if p.1 = k then some p.2 else alistGet rest k

/-- Assignment `obj[k] = v` on a JS-object model: an existing key keeps its
position and gets the new value, a new key is appended. -/
def alistSet {β : Type} : List (String × β) → String → β → List (String × β)
  | [], k, v => [(k, v)]
  | p :: rest, k, v => if p.1 = k then (k, v) :: rest else p :: alistSet rest k v

/-- A resolved-path record: `Record<string, string | null>`. -/
abbrev PathRec := List (String × Option String)

/-- JS object spread `{ ...a, ...b }`: assign every entry of `b` over `a`,
so `b`'s entries take precedence. -/
def recMerge (a b : PathRec) : PathRec :=
  b.foldl (fun acc p => alistSet acc p.1 p.2) a

/-! ## GUID pattern scanning

Embedding of the regex
`/\{?[0-9A-Fa-f]{8}-[0-9A-Fa-f]{4}-[0-9A-Fa-f]{4}-[0-9A-Fa-f]{4}-[0-9A-Fa-f]{12}\}?/g`
applied via `String.prototype.match`: scan left to right, at each position
try the pattern, and on success emit the matched text and resume after it. -/

def isHexDigit (c : Char) : Bool :=
  ('0' ≤ c && c ≤ '9') || ('a' ≤ c && c ≤ 'f') || ('A' ≤ c && c ≤ 'F')

/-- Consume exactly `n` hex digits, returning them and the remainder. -/
def takeHex : Nat → List Char → Option (List Char × List Char)
  | 0, cs => some ([], cs)
  | _ + 1, [] => none
  | n + 1, c :: cs =>
    if isHexDigit c then (takeHex n cs).map (fun p => (c :: p.1, p.2)) else none

/-- Consume a hyphen followed by exactly `n` hex digits. -/
def takeHyphenHex (n : Nat) (cs : List Char) : Option (List Char × List Char) :=
  match cs with
  | c :: rest => if c = '-' then (takeHex n rest).map (fun p => (c :: p.1, p.2)) else none
  | [] => none

/-- The unbraced 8-4-4-4-12 hex body of the GUID pattern. -/
def matchGuidBody (cs : List Char) : Option (List Char × List Char) :=
  match takeHex 8 cs with
  | none => none
  | some (a, r1) =>
    match takeHyphenHex 4 r1 with
    | none => none
    | some (b, r2) =>
      match takeHyphenHex 4 r2 with
      | none => none
      | some (c, r3) =>
        match takeHyphenHex 4 r3 with
        | none => none
        | some (d, r4) =>
          match takeHyphenHex 12 r4 with
          | none => none
          | some (e, r5) => some (a ++ b ++ c ++ d ++ e, r5)

/-- Try the full pattern (optional opening brace, GUID body, optional
closing brace) at the start of `cs`. -/
def matchGuidAt (cs : List Char) : Option (List Char × List Char) :=
  let finish : List Char → List Char × List Char → List Char × List Char :=
    fun pre p =>
      match p.2 with
      | d :: rest => if d = '\x7d' then (pre ++ p.1 ++ [d], rest) else (pre ++ p.1, p.2)
      | [] => (pre ++ p.1, [])
  match cs with
  | c :: rest =>
    if c = '\x7b' then (matchGuidBody rest).map (finish [c])
    else (matchGuidBody cs).map (finish [])
  | [] => none

/-- Global scan: collect every non-overlapping match left to right. -/
def scanGuidsAux : Nat → List Char → List String
  | 0, _ => []
  | _ + 1, [] => []
  | fuel + 1, c :: cs =>
    match matchGuidAt (c :: cs) with
    | some (m, rest) => String.mk m :: scanGuidsAux fuel rest
    | none => scanGuidsAux fuel cs

/-- `value.match(guidRegex)` as the list of matched substrings. -/
def scanGuids (s : String) : List String :=
  scanGuidsAux s.data.length s.data

/-! ## Datasource path resolver (`resolveLocalDatasourcePaths`)

The batched authoring lookup made for one strategy is modelled by an
`EdgeResponse`: whether `response?.data?.data` is present, and, per absolute
path, the raw `itemId` of the item found there (if any). A strategy whose
`client.mutate` call rejects is a `StrategyOutcome.threw`. -/

structure EdgeResponse where
  hasData : Bool
  item : String → Option String

inductive StrategyOutcome where
  | threw (e : String)
  | responded (r : EdgeResponse)

/-- The ordered path-construction strategies (source `pathStrategies`). -/
def strategyApply (i : Nat) (localPath basePath : String) : String :=
  match i with
  | 0 => basePath ++ "/" ++ localPath
  | 1 => basePath ++ "/Data/" ++ localPath
  | 2 => basePath ++ "/" ++ replaceFirst localPath "Page Components/"
  | _ => basePath ++ "/Data/" ++ replaceFirst localPath "Page Components/"

/-- One iteration of the `localPaths.forEach` that fills `result` and counts
`foundItems`. -/
def strategyStep (basePath : String) (i : Nat) (r : EdgeResponse)
    (acc : PathRec × Nat) (localPath : String) : PathRec × Nat :=
  match r.item (strategyApply i localPath basePath) with
  | some iid =>
    if iid ≠ "" then (alistSet acc.1 localPath (some (canonGuid iid)), acc.2 + 1)
    else (alistSet acc.1 localPath none, acc.2)
  | none => (alistSet acc.1 localPath none, acc.2)

/-- One strategy's processing of its response (source lines building
`result` and `foundItems`): every local path gets an entry, resolved ones a
canonicalized id, the rest `null`; `foundItems` counts the resolved ones.
If `response?.data?.data` is absent the record stays empty. -/
def buildStrategyResult (localPaths : List String) (basePath : String) (i : Nat)
    (r : EdgeResponse) : PathRec × Nat :=
  if r.hasData then localPaths.foldl (strategyStep basePath i r) ([], 0)
  else ([], 0)

/-- The strategy cascade, returning the accumulated record and the number of
batched calls issued. A fully-resolving strategy returns its own record at
once; a partially-resolving one is spread over the accumulator
(`{ ...resolvedItems, ...result }`); a barren or throwing one leaves the
accumulator alone. -/
def resolveLoop (localPaths : List String) (basePath : String)
    (o : Nat → StrategyOutcome) : List Nat → PathRec → Nat → PathRec × Nat
  | [], acc, calls => (acc, calls)
  | i :: rest, acc, calls =>
    match o i with
    | .threw _ => resolveLoop localPaths basePath o rest acc (calls + 1)
    | .responded r =>
      let pr := buildStrategyResult localPaths basePath i r
      if pr.2 = localPaths.length then (pr.1, calls + 1)
      else if 0 < pr.2 then resolveLoop localPaths basePath o rest (recMerge acc pr.1) (calls + 1)
      else resolveLoop localPaths basePath o rest acc (calls + 1)

/-- `resolveLocalDatasourcePaths` from `utils/graphqlQueries.ts`. The unused
query ingredients (`sitecoreContextId`, `language`) are kept for fidelity;
the backend behaviour is the per-strategy oracle `o`. -/
def resolveLocalDatasourcePaths (client : Bool) (localPaths : List String)
    (basePath : String) (sitecoreContextId : String) (language : String)
    (o : Nat → StrategyOutcome) : PathRec × Nat :=
  if ¬ client ∨ localPaths = [] then ([], 0)
  else resolveLoop localPaths basePath o [0, 1, 2, 3] [] 0

/-- A strategy fully resolves the batch when its response yields a non-empty
`itemId` for every local path. -/
def fullAt (localPaths : List String) (basePath : String) (o : Nat → StrategyOutcome)
    (i : Nat) : Bool :=
  match o i with
  | .threw _ => false
  | .responded r => (buildStrategyResult localPaths basePath i r).2 = localPaths.length

/-- A strategy resolves at least one path. -/
def someFoundAt (localPaths : List String) (basePath : String)
    (o : Nat → StrategyOutcome) (i : Nat) : Bool :=
  match o i with
  | .threw _ => false
  | .responded r => 0 < (buildStrategyResult localPaths basePath i r).2

/-- The record strategy `i` would return on its own. -/
def strategyResultRec (localPaths : List String) (basePath : String)
    (o : Nat → StrategyOutcome) (i : Nat) : PathRec :=
  match o i with
  | .threw _ => []
  | .responded r => (buildStrategyResult localPaths basePath i r).1

/-! ## Data model of fetched entities -/

/-- A field node of an authoring projection (`fields { nodes { name value } }`).
A missing or non-string value is `none`. -/
structure FieldNode where
  name : String
  value : Option String
deriving DecidableEq, Repr

/-- An authoring projection of an item as queried by `getItemsFromAuthoring`. -/
structure AuthItem where
  itemId : Option String
  name : Option String
  path : Option String
  version : Option String
  template : Option String
  language : Option String
  fields : Option (List FieldNode)
deriving DecidableEq, Repr

/-- A live projection of an item as queried by `getItemsFromLive`. -/
structure LiveItem where
  id : Option String
  name : Option String
  version : Option String
  language : Option String
deriving DecidableEq, Repr

/-- The parent info recorded for a discovered reference (source object built
from `item.itemId` / `item.name` / display-name field / `item.path`). -/
structure ParentInfo where
  id : String
  name : String
  displayName : Option String
  path : String
deriving DecidableEq, Repr

/-- `ItemQueryResult`: `data` mirrors the two `?.data?.data` levels of the
GraphQL envelope (the record's values listed in alias order), `error` the
caught-error marker. -/
structure ItemQueryResult (ι : Type) where
  qdata : Option (Option (List (Option ι)))
  qerror : Option String
deriving DecidableEq, Repr

/-! ## Reference graph extractor (lines 148–204 of `fetchItemInformation`) -/

/-- The system/settings fields skipped by the extractor. -/
def systemFieldNames : List String :=
  ["__Created", "__Updated", "__Owner", "__Lock", "__Revision", "__Workflow",
   "__Standard Values", "__Sortorder"]

/-- `field.name.includes(sf)` for some system field `sf`. -/
def isSystemField (fieldName : String) : Bool :=
  systemFieldNames.any (fun sf => jsIncludes fieldName sf)

/-- The `parentInfo` object computed once per authoring item. -/
def mkParentInfo (item : AuthItem) (nodes : List FieldNode) : ParentInfo :=
  let displayNameField :=
    nodes.find? (fun f => f.name = "__Display name" ∨ f.name = "Display Name")
  { id := (item.itemId.map canonGuid).getD ""
    name := jsOrString item.name "Unknown"
    displayName := jsOrUndef (displayNameField.bind (fun f => f.value))
    path := jsOrString item.path "" }

/-- Extractor state: the nested-fetch queue and the child → parents map. -/
structure ExtractState where
  nestedItemIds : List String
  referencedByMap : List (String × List ParentInfo)
deriving DecidableEq, Repr

/-- Processing of one regex match (the `matches.forEach` body): record the
parent once per parent id under the canonical child key, and queue the child
only when it is in neither the main list nor the queue. -/
def recordReference (itemIds : List String) (pinfo : ParentInfo)
    (st : ExtractState) (m : String) : ExtractState :=
  let cleanGuid := canonGuid m
  let existingRefs := (alistGet st.referencedByMap cleanGuid).getD []
  let refs1 :=
    if existingRefs.any (fun r => r.id = pinfo.id) then existingRefs
    else existingRefs ++ [pinfo]
  let map1 := alistSet st.referencedByMap cleanGuid refs1
  let nested1 :=
    if ¬ itemIds.contains cleanGuid ∧ ¬ st.nestedItemIds.contains cleanGuid then
      st.nestedItemIds ++ [cleanGuid]
    else st.nestedItemIds
  ⟨nested1, map1⟩

/-- Processing of one field: skip missing/empty values and system fields,
otherwise scan the value and process every match. -/
def processField (itemIds : List String) (pinfo : ParentInfo)
    (st : ExtractState) (f : FieldNode) : ExtractState :=
  match f.value with
  | some v =>
    if v ≠ "" then
      if isSystemField f.name then st
      else (scanGuids v).foldl (recordReference itemIds pinfo) st
    else st
  | none => st

/-- Processing of one authoring record value (skipped when the item is null
or has no `fields.nodes`). -/
def processItem (itemIds : List String) (st : ExtractState)
    (oitem : Option AuthItem) : ExtractState :=
  match oitem with
  | none => st
  | some item =>
    match item.fields with
    | none => st
    | some nodes => nodes.foldl (processField itemIds (mkParentInfo item nodes)) st

/-- The whole extraction pass over `authoringResult.data.data`'s values. -/
def extractReferences (authoringValues : List (Option AuthItem))
    (itemIds : List String) : ExtractState :=
  authoringValues.foldl (processItem itemIds) ⟨[], []⟩

/-! A flattened view of the extractor used to state per-candidate claims:
the (parent, raw match) pairs in the order the extractor discovers them. -/

/-- The matches contributed by one field, after its guards. -/
def fieldMatches (f : FieldNode) : List String :=
  match f.value with
  | some v => if v ≠ "" ∧ ¬ isSystemField f.name then scanGuids v else []
  | none => []

/-- Matches of a field list, in order. -/
def fieldMatchList : List FieldNode → List String
  | [] => []
  | f :: fs => fieldMatches f ++ fieldMatchList fs

/-- The (parent, raw match) pairs contributed by one authoring record value. -/
def itemDiscoveredPairs (oitem : Option AuthItem) : List (ParentInfo × String) :=
  match oitem with
  | none => []
  | some item =>
    match item.fields with
    | none => []
    | some nodes => (fieldMatchList nodes).map (fun m => (mkParentInfo item nodes, m))

/-- All (parent, raw match) pairs discovered over the authoring values. -/
def discoveredPairs : List (Option AuthItem) → List (ParentInfo × String)
  | [] => []
  | oi :: rest => itemDiscoveredPairs oi ++ discoveredPairs rest

/-- Folding `recordReference` over a flat pair list. -/
def foldPairs (itemIds : List String) (l : List (ParentInfo × String))
    (st : ExtractState) : ExtractState :=
  l.foldl (fun st pm => recordReference itemIds pm.1 st pm.2) st

/-! ## Nested entity validator (lines 207–237) -/

/-- The excluded system subtrees. -/
def excludedPathsList : List String :=
  ["/sitecore/system/", "/sitecore/templates/", "/sitecore/layout/"]

/-- `nestedItem?.path || ''` of a validation-response record value. -/
def nestedPathOf (oitem : Option AuthItem) : String :=
  jsOrString (oitem.bind (fun it => it.path)) ""

/-- `nestedItem?.itemId || ''` of a validation-response record value. -/
def nestedIdOf (oitem : Option AuthItem) : String :=
  jsOrString (oitem.bind (fun it => it.itemId)) ""

/-- One iteration of the validation `forEach`: keep an entry's canonical id
exactly when its path is non-empty and outside every excluded subtree. -/
def validateStep (acc : List String) (oitem : Option AuthItem) : List String :=
  let itemPath := nestedPathOf oitem
  let itemId := nestedIdOf oitem
  let isSystemItem := excludedPathsList.any (fun ep => jsStartsWith itemPath ep)
  if ¬ isSystemItem ∧ itemPath ≠ "" then acc ++ [canonGuid itemId] else acc

/-- `validNestedIds` built from the validation response's record values. -/
def validateNested (vals : List (Option AuthItem)) : List String :=
  vals.foldl validateStep []

/-! ## Growth of the unified identifier list -/

/-- One iteration of the `Object.values(resolvedPaths).forEach` of lines
130–135: a truthy resolved id is appended when not yet present. -/
def addResolvedStep (acc : List String) (pr : String × Option String) : List String :=
  match pr.2 with
  | some resolvedId =>
    if resolvedId ≠ "" ∧ ¬ acc.contains resolvedId then acc ++ [resolvedId] else acc
  | none => acc

/-- Lines 130–135: append each non-null resolved id not yet present. -/
def addResolved (itemIds : List String) (resolvedPaths : PathRec) : List String :=
  resolvedPaths.foldl addResolvedStep itemIds

/-- The unified identifier list a cycle hands to `processItemData`: initial
ids (context-extracted or caller override), then unseen resolver ids, then —
when the extractor queued any candidate — the validated nested ids. -/
def unifiedItemIds (initIds : List String) (resolvedPaths : PathRec)
    (authVals : List (Option AuthItem)) (validationVals : List (Option AuthItem)) :
    List String :=
  let ids1 := addResolved initIds resolvedPaths
  let candidates := (extractReferences authVals ids1).nestedItemIds
  let validNested := if candidates = [] then [] else validateNested validationVals
  ids1 ++ validNested

/-! ## Dual-source fetchers (`utils/graphqlQueries.ts`) -/

/-- Outcome of an awaited call: a value, or a rejection with an `Error`
message. -/
inductive QueryOutcome (α : Type) where
  | ok (v : α)
  | threw (e : String)
deriving DecidableEq, Repr

/-- Behaviour of the authoring mutation channel, addressed by context id,
identifier list and language; what `client.mutate('xmc.authoring.graphql')`
resolves to (an arbitrary `ItemQueryResult`-shaped value) or rejects with. -/
abbrev AuthEndpoint := Option String → List String → String → QueryOutcome (ItemQueryResult AuthItem)

/-- `getItemsFromAuthoring`: empty input or missing client short-circuits to
an empty success envelope; a rejection is caught and returned as `{ error }`. -/
def getItemsFromAuthoring (client : Bool) (itemIds : List String)
    (sitecoreContextId : Option String) (language : String)
    (endpoint : AuthEndpoint) : ItemQueryResult AuthItem :=
  if ¬ client ∨ itemIds = [] then ⟨some (some []), none⟩
  else
    match endpoint sitecoreContextId itemIds language with
    | .ok r => r
    | .threw e => ⟨none, some e⟩

/-- The semantic content of the live batched query: one
`(alias index, bracketed hyphenated path, language)` tuple per identifier. -/
structure LiveRequest where
  items : List (Nat × String × String)
deriving DecidableEq, Repr

/-- Modelled from the spec: `formatGuidWithHyphens` lives in
`utils/dataProcessing.ts`, which is not among the provided sources. The spec
describes the canonical identifier as "uppercase, brace-stripped, hyphenated
8-4-4-4-12" text and `formatGuidForLive` is documented as "Format GUID for
live endpoint (needs hyphens)", so the model canonicalizes and inserts the
hyphens when they are absent from a 32-digit form. -/
def formatGuidWithHyphens (guid : String) : String :=
  let c := canonGuid guid
  if c.length = 32 ∧ ¬ c.data.contains '-' then
    String.mk (c.data.take 8) ++ "-" ++ String.mk ((c.data.drop 8).take 4) ++ "-" ++
      String.mk ((c.data.drop 12).take 4) ++ "-" ++ String.mk ((c.data.drop 16).take 4) ++
      "-" ++ String.mk (c.data.drop 20)
  else c

/-- `formatGuidForLive` simply delegates to `formatGuidWithHyphens`. -/
def formatGuidForLive (guid : String) : String :=
  formatGuidWithHyphens guid

/-- The live query built by `getItemsFromLive`: per identifier an aliased
`item(path: "{...}", language: "...")` selection. -/
def buildLiveRequest (itemIds : List String) (language : String) : LiveRequest :=
  ⟨(itemIds.enum).map (fun p => (p.1, "\x7b" ++ formatGuidForLive p.2 ++ "\x7d", language))⟩

/-- Behaviour of the live HTTP endpoint: reject, respond non-ok, or respond
with a parsed GraphQL envelope (its `data` member). -/
inductive LiveOutcome where
  | netThrew (e : String)
  | httpError (status : Nat)
  | ok (body : Option (List (Option LiveItem)))
deriving DecidableEq, Repr

/-- Behaviour of the live endpoint as a function of the request sent. -/
abbrev LiveEndpoint := LiveRequest → LiveOutcome

/-- The message thrown when the edge token is not configured. -/
def missingTokenMsg : String :=
  "VITE_SITECORE_EDGE_TOKEN environment variable is not set. Please configure your Experience Edge API token."

/-- `getItemsFromLive`: the `_client` and `_sitecoreContextId` parameters are
accepted but unused (kept for API compatibility, as in the source); every
failure inside the `try` — missing token, network rejection, non-ok HTTP
status — is caught and returned as `{ error }`. -/
def getItemsFromLive (client : Bool) (itemIds : List String)
    (sitecoreContextId : Option String) (language : String) (token : String)
    (endpoint : LiveEndpoint) : ItemQueryResult LiveItem :=
  if itemIds = [] then ⟨some (some []), none⟩
  else if token = "" then ⟨none, some missingTokenMsg⟩
  else
    match endpoint (buildLiveRequest itemIds language) with
    | .netThrew e => ⟨none, some e⟩
    | .httpError status => ⟨none, some ("HTTP error! status: " ++ toString status)⟩
    | .ok body => ⟨some body, none⟩

/-- The `Promise.all` fan-out of lines 142–145: both sources queried for the
same identifier list, results joined as a pair. -/
def dualSourceFetch (client : Bool) (itemIds : List String)
    (sitecoreContextId : Option String) (language token : String)
    (authEndpoint : AuthEndpoint) (liveEndpoint : LiveEndpoint) :
    ItemQueryResult AuthItem × ItemQueryResult LiveItem :=
  (getItemsFromAuthoring client itemIds sitecoreContextId language authEndpoint,
   getItemsFromLive client itemIds sitecoreContextId language token liveEndpoint)

/-! ## The fetch cycle (`hooks/useItemInformation.ts`) -/

/-- What `extractItemIdsWithLocalPaths` returns for the page context. -/
structure ExtractionResult where
  itemIds : List String
  localPathsToResolve : List String
  currentPagePath : String
  language : String
deriving DecidableEq, Repr

/-- The collaborators and backend behaviours one fetch cycle runs against.
`ρ` is the response type produced by `createItemInformationResponse` and `π`
the processed-item type produced by `processItemData`; both functions live in
`utils/dataProcessing.ts` (not among the provided sources) and are therefore
carried as opaque parameters of the world. -/
structure FetchWorld (ρ π : Type) where
  clientPresent : Bool
  isInitialized : Bool
  pagesContextOutcome : QueryOutcome ExtractionResult
  appContextOutcome : QueryOutcome (Option String)
  resolverOracle : Nat → StrategyOutcome
  authEndpoint : AuthEndpoint
  liveEndpoint : LiveEndpoint
  liveToken : String
  processItemData : ItemQueryResult AuthItem → ItemQueryResult LiveItem →
    List String → Option String → Option (List (String × List ParentInfo)) → List π
  createItemInformationResponse : List π → ρ

/-- The hook's published state. -/
structure HookState (ρ π : Type) where
  data : Option ρ
  items : List π
  loading : Bool
  error : Option String

/-- Lines 62–84: initial identifiers, current item, local paths, page path
and language — from the caller's override when one with at least one id was
supplied, otherwise from the page context (whose failure or emptiness
throws). -/
def initialContextOf {ρ π : Type} (w : FetchWorld ρ π)
    (specificItemIds : Option (List String)) :
    Except String (List String × Option String × List String × String × String) :=
  let fromContext :=
    match w.pagesContextOutcome with
    | .threw e => .error e
    | .ok ext =>
      if ext.itemIds = [] then .error "No item IDs found in current context"
      else .ok (ext.itemIds, ext.itemIds.head?, ext.localPathsToResolve,
                ext.currentPagePath, ext.language)
  match specificItemIds with
  | some ids => if ids ≠ [] then .ok (ids, ids.head?, [], "", "en") else fromContext
  | none => fromContext

/-- The body of `fetchItemInformation`'s `try` block: everything between
context extraction and the construction of the published response. Only the
two context failures can escape as errors; every backend degradation is
handled locally. -/
def runFetchBody {ρ π : Type} (w : FetchWorld ρ π)
    (specificItemIds : Option (List String)) : Except String (ρ × List π) :=
  match initialContextOf w specificItemIds with
  | .error e => .error e
  | .ok (itemIds0, currentItemId, localPathsToResolve, currentPagePath, language) =>
    let sitecoreContextId : Option String :=
      match w.appContextOutcome with
      | .ok v => v
      | .threw _ => none
    let itemIds1 :=
      if localPathsToResolve ≠ [] ∧ sitecoreContextId.isSome then
        addResolved itemIds0
          (resolveLocalDatasourcePaths true localPathsToResolve currentPagePath
            (sitecoreContextId.getD "") language w.resolverOracle).1
      else itemIds0
    let authoringResult :=
      getItemsFromAuthoring true itemIds1 sitecoreContextId language w.authEndpoint
    let liveResult :=
      getItemsFromLive true itemIds1 sitecoreContextId language w.liveToken w.liveEndpoint
    let authVals :=
      match authoringResult.qdata with
      | some (some l) => l
      | _ => []
    let ext := extractReferences authVals itemIds1
    let validNested :=
      if ext.nestedItemIds ≠ [] then
        let nestedAuthoringResult :=
          getItemsFromAuthoring true ext.nestedItemIds sitecoreContextId language w.authEndpoint
        match nestedAuthoringResult.qdata with
        | some (some vals) => validateNested vals
        | _ => []
      else []
    let merged :=
      if validNested ≠ [] then
        let nestedLiveResult :=
          getItemsFromLive true validNested sitecoreContextId language w.liveToken w.liveEndpoint
        let nestedAuthoringFullResult :=
          getItemsFromAuthoring true validNested sitecoreContextId language w.authEndpoint
        let authoringResult2 :=
          match nestedAuthoringFullResult.qdata, authoringResult.qdata with
          | some (some nvals), some (some avals) =>
            ({ authoringResult with qdata := some (some (avals ++ nvals)) } : ItemQueryResult AuthItem)
          | _, _ => authoringResult
        let liveResult2 :=
          match nestedLiveResult.qdata, liveResult.qdata with
          | some (some nvals), some (some lvals) =>
            ({ liveResult with qdata := some (some (lvals ++ nvals)) } : ItemQueryResult LiveItem)
          | _, _ => liveResult
        (authoringResult2, liveResult2, itemIds1 ++ validNested)
      else (authoringResult, liveResult, itemIds1)
    let processedItems :=
      w.processItemData merged.1 merged.2.1 merged.2.2 currentItemId (some ext.referencedByMap)
    .ok (w.createItemInformationResponse processedItems, processedItems)

/-- `fetchItemInformation` as a transformer of the hook's published state:
the guard clause only touches `error`; a successful body publishes data and
items with the error cleared; a thrown context failure clears data and items
and surfaces the message; `loading` ends `false` either way (`finally`). -/
def fetchItemInformation {ρ π : Type} (w : FetchWorld ρ π)
    (specificItemIds : Option (List String)) (st : HookState ρ π) : HookState ρ π :=
  if ¬ (w.clientPresent ∧ w.isInitialized) then
    { st with error := some "Marketplace client not initialized" }
  else
    match runFetchBody w specificItemIds with
    | .ok (resp, processed) =>
      { data := some resp, items := processed, loading := false, error := none }
    | .error e =>
      { data := none, items := [], loading := false, error := some e }

/-- `fetchSpecificItems` from `useSpecificItemsInformation`: the guard clause
returns before any query, setting only the error string; otherwise both
sources are fetched for the given ids with no context id and language "en",
and `processItemData` is called without a referenced-by map. -/
def fetchSpecificItems {ρ π : Type} (w : FetchWorld ρ π) (itemIds : List String)
    (st : HookState ρ π) : HookState ρ π :=
  if ¬ w.clientPresent ∨ ¬ w.isInitialized ∨ itemIds = [] then
    let msg :=
      if itemIds = [] then "No item IDs provided" else "Marketplace client not initialized"
    { st with error := some msg }
  else
    let fetched := dualSourceFetch true itemIds none "en" w.liveToken w.authEndpoint w.liveEndpoint
    let processedItems := w.processItemData fetched.1 fetched.2 itemIds itemIds.head? none
    { data := some (w.createItemInformationResponse processedItems)
      items := processedItems
      loading := false
      error := none }

/-! ## Association-list lemmas -/

theorem alistGet_set_self {β : Type} (m : List (String × β)) (k : String) (v : β) :
    alistGet (alistSet m k v) k = some v := by
  induction m with
  | nil => simp [alistSet, alistGet]
  | cons p rest ih =>
    by_cases h : p.1 = k
    · simp [alistSet, h, alistGet]
    · simp [alistSet, h, alistGet, ih]

theorem alistGet_set_ne {β : Type} (m : List (String × β)) (k k' : String) (v : β)
    (h : k' ≠ k) : alistGet (alistSet m k v) k' = alistGet m k' := by
  have h' : ¬ k = k' := fun hk => h hk.symm
  induction m with
  | nil => simp [alistSet, alistGet, h']
  | cons p rest ih =>
    by_cases hp : p.1 = k
    · subst hp
      simp [alistSet, alistGet, h']
    · simp only [alistSet, if_neg hp, alistGet]
      by_cases hp' : p.1 = k'
      · simp [hp']
      · simp [hp', ih]

theorem alistGet_set_isSome {β : Type} (m : List (String × β)) (k k' : String) (v : β)
    (h : (alistGet m k').isSome) : (alistGet (alistSet m k v) k').isSome := by
  by_cases hk : k' = k
  · subst hk
    simp [alistGet_set_self]
  · rwa [alistGet_set_ne m k k' v hk]

theorem recMerge_isSome_left (a b : PathRec) (p : String)
    (h : (alistGet a p).isSome) : (alistGet (recMerge a b) p).isSome := by
  induction b generalizing a with
  | nil => simpa [recMerge] using h
  | cons q rest ih =>
    simpa [recMerge] using ih (alistSet a q.1 q.2) (alistGet_set_isSome a q.1 p q.2 h)

theorem recMerge_isSome_right (a b : PathRec) (p : String)
    (h : (alistGet b p).isSome) : (alistGet (recMerge a b) p).isSome := by
  induction b generalizing a with
  | nil => simp [alistGet] at h
  | cons q rest ih =>
    by_cases hp : q.1 = p
    · subst hp
      by_cases hrest : (alistGet rest q.1).isSome
      · simpa [recMerge] using ih (alistSet a q.1 q.2) hrest
      · have : (alistGet (alistSet a q.1 q.2) q.1).isSome := by simp [alistGet_set_self]
        simpa [recMerge] using recMerge_isSome_left _ rest q.1 this
    · have hb : (alistGet rest p).isSome := by
        simpa [alistGet, hp] using h
      simpa [recMerge] using ih (alistSet a q.1 q.2) hb

/-! ## Resolver lemmas -/

theorem strategyStep_fold_isSome (bp : String) (i : Nat) (r : EdgeResponse) :
    ∀ (lp : List String) (acc : PathRec × Nat) (p : String),
      p ∈ lp ∨ (alistGet acc.1 p).isSome →
      (alistGet (lp.foldl (strategyStep bp i r) acc).1 p).isSome := by
  intro lp
  induction lp with
  | nil =>
    intro acc p h
    rcases h with h | h
    · cases h
    · simpa using h
  | cons q rest ih =>
    intro acc p h
    have hstep : (alistGet (strategyStep bp i r acc q).1 p).isSome ∨ p ∈ rest := by
      rcases h with h | h
      · rcases List.mem_cons.mp h with rfl | h
        · left
          unfold strategyStep
          cases r.item (strategyApply i p bp) with
          | none => simpa using alistGet_set_self acc.1 p (none : Option String) ▸ rfl
          | some iid =>
            by_cases hiid : iid ≠ ""
            · simp [hiid, alistGet_set_self]
            · simp [hiid, alistGet_set_self]
        · right; exact h
      · left
        unfold strategyStep
        cases r.item (strategyApply i q bp) with
        | none => exact alistGet_set_isSome acc.1 q p none h
        | some iid =>
          by_cases hiid : iid ≠ ""
          · simpa [hiid] using alistGet_set_isSome acc.1 q p (some (canonGuid iid)) h
          · simpa [hiid] using alistGet_set_isSome acc.1 q p none h
    simp only [List.foldl_cons]
    rcases hstep with hs | hs
    · exact ih (strategyStep bp i r acc q) p (Or.inr hs)
    · exact ih (strategyStep bp i r acc q) p (Or.inl hs)

theorem buildStrategyResult_isSome (lp : List String) (bp : String) (i : Nat)
    (r : EdgeResponse) (hdata : r.hasData = true) (p : String) (hp : p ∈ lp) :
    (alistGet (buildStrategyResult lp bp i r).1 p).isSome := by
  unfold buildStrategyResult
  rw [hdata]
  simpa using strategyStep_fold_isSome bp i r lp ([], 0) p (Or.inl hp)

theorem buildStrategyResult_pos_hasData (lp : List String) (bp : String) (i : Nat)
    (r : EdgeResponse) (hpos : 0 < (buildStrategyResult lp bp i r).2) :
    r.hasData = true := by
  by_contra hfalse
  have : r.hasData = false := by simpa using hfalse
  rw [buildStrategyResult, this] at hpos
  simp at hpos

theorem resolveLoop_calls_le (lp : List String) (bp : String) (o : Nat → StrategyOutcome) :
    ∀ (l : List Nat) (acc : PathRec) (c : Nat),
      (resolveLoop lp bp o l acc c).2 ≤ c + l.length := by
  intro l
  induction l with
  | nil =>
    intro acc c
    simp [resolveLoop]
  | cons i rest ih =>
    intro acc c
    rw [resolveLoop]
    cases ho : o i with
    | threw e =>
      have := ih acc (c + 1)
      simp only [List.length_cons]
      omega
    | responded r =>
      by_cases hf : (buildStrategyResult lp bp i r).2 = lp.length
      · simp only [hf, if_true, List.length_cons]
        omega
      · simp only [hf, if_false]
        by_cases hpos : 0 < (buildStrategyResult lp bp i r).2
        · have := ih (recMerge acc (buildStrategyResult lp bp i r).1) (c + 1)
          simp only [hpos, if_true, List.length_cons]
          omega
        · have := ih acc (c + 1)
          simp only [hpos, if_false, List.length_cons]
          omega

theorem resolveLoop_step_notfull (lp : List String) (bp : String)
    (o : Nat → StrategyOutcome) (i : Nat) (hful : fullAt lp bp o i = false)
    (rest : List Nat) (acc : PathRec) (c : Nat) :
    ∃ acc', resolveLoop lp bp o (i :: rest) acc c = resolveLoop lp bp o rest acc' (c + 1) := by
  rw [resolveLoop]
  cases ho : o i with
  | threw e => exact ⟨acc, rfl⟩
  | responded r =>
    have hf : ¬ (buildStrategyResult lp bp i r).2 = lp.length := by
      intro hcontra
      rw [fullAt, ho] at hful
      simp [hcontra] at hful
    by_cases hpos : 0 < (buildStrategyResult lp bp i r).2
    · exact ⟨recMerge acc (buildStrategyResult lp bp i r).1, by simp [hf, hpos]⟩
    · exact ⟨acc, by simp [hf, hpos]⟩

theorem resolveLoop_step_full (lp : List String) (bp : String)
    (o : Nat → StrategyOutcome) (i : Nat) (hful : fullAt lp bp o i = true)
    (rest : List Nat) (acc : PathRec) (c : Nat) :
    resolveLoop lp bp o (i :: rest) acc c = (strategyResultRec lp bp o i, c + 1) := by
  rw [resolveLoop]
  cases ho : o i with
  | threw e =>
    rw [fullAt, ho] at hful
    cases hful
  | responded r =>
    have hf : (buildStrategyResult lp bp i r).2 = lp.length := by
      rw [fullAt, ho] at hful
      simpa using hful
    simp [hf, strategyResultRec, ho]

theorem resolveLoop_allkeys (lp : List String) (bp : String) (o : Nat → StrategyOutcome) :
    ∀ (l : List Nat) (acc : PathRec) (c : Nat),
      (∀ i ∈ l, fullAt lp bp o i = false) →
      ((∃ i ∈ l, someFoundAt lp bp o i = true) ∨ ∀ p ∈ lp, (alistGet acc p).isSome) →
      ∀ p ∈ lp, (alistGet (resolveLoop lp bp o l acc c).1 p).isSome := by
  intro l
  induction l with
  | nil =>
    intro acc c _ hsrc p hp
    rcases hsrc with ⟨i, hi, _⟩ | hacc
    · cases hi
    · simpa [resolveLoop] using hacc p hp
  | cons i rest ih =>
    intro acc c hnotfull hsrc p hp
    rw [resolveLoop]
    cases ho : o i with
    | threw e =>
      refine ih acc (c + 1) (fun j hj => hnotfull j (List.mem_cons_of_mem i hj)) ?_ p hp
      rcases hsrc with ⟨j, hj, hjs⟩ | hacc
      · rcases List.mem_cons.mp hj with rfl | hj
        · rw [someFoundAt, ho] at hjs
          cases hjs
        · exact Or.inl ⟨j, hj, hjs⟩
      · exact Or.inr hacc
    | responded r =>
      have hf : ¬ (buildStrategyResult lp bp i r).2 = lp.length := by
        intro hcontra
        have := hnotfull i (List.mem_cons_self i rest)
        rw [fullAt, ho] at this
        simp [hcontra] at this
      by_cases hpos : 0 < (buildStrategyResult lp bp i r).2
      · have hdata : r.hasData = true := buildStrategyResult_pos_hasData lp bp i r hpos
        have hmergeall : ∀ q ∈ lp,
            (alistGet (recMerge acc (buildStrategyResult lp bp i r).1) q).isSome := by
          intro q hq
          exact recMerge_isSome_right acc _ q (buildStrategyResult_isSome lp bp i r hdata q hq)
        simp only [hf, if_false, hpos, if_true]
        exact ih (recMerge acc (buildStrategyResult lp bp i r).1) (c + 1)
          (fun j hj => hnotfull j (List.mem_cons_of_mem i hj)) (Or.inr hmergeall) p hp
      · simp only [hf, if_false, hpos, if_false]
        refine ih acc (c + 1) (fun j hj => hnotfull j (List.mem_cons_of_mem i hj)) ?_ p hp
        rcases hsrc with ⟨j, hj, hjs⟩ | hacc
        · rcases List.mem_cons.mp hj with rfl | hj
          · have hj' : 0 < (buildStrategyResult lp bp j r).2 := by
              rw [someFoundAt, ho] at hjs
              simpa using hjs
            exact absurd hj' hpos
          · exact Or.inl ⟨j, hj, hjs⟩
        · exact Or.inr hacc

/-- Membership in the concrete strategy index list. -/
theorem mem_strategy_indices (i : Nat) : i ∈ [0, 1, 2, 3] ↔ i < 4 := by
  constructor
  · intro h
    fin_cases h <;> omega
  · intro h
    interval_cases i <;> decide

/-! ## Claim C3 -/

/-- Claim C3: for a non-empty list of relative paths the resolver issues at most 4
batched lookup calls (one per strategy), however many paths there are; and
if strategy `k` is the first whose batch resolves every path, the run stops
there — exactly `k + 1` calls are issued and that strategy's own record is
returned unchanged. -/
theorem spec_c3_resolver_calls (localPaths : List String) (basePath ctxId lang : String)
    (o : Nat → StrategyOutcome) (hne : localPaths ≠ []) :
    (resolveLocalDatasourcePaths true localPaths basePath ctxId lang o).2 ≤ 4
    ∧ ∀ k, k < 4 → (∀ j, j < k → fullAt localPaths basePath o j = false) →
        fullAt localPaths basePath o k = true →
        resolveLocalDatasourcePaths true localPaths basePath ctxId lang o
          = (strategyResultRec localPaths basePath o k, k + 1) := by
  have hstart : resolveLocalDatasourcePaths true localPaths basePath ctxId lang o
      = resolveLoop localPaths basePath o [0, 1, 2, 3] [] 0 := by
    simp [resolveLocalDatasourcePaths, hne]
  constructor
  · rw [hstart]
    simpa using resolveLoop_calls_le localPaths basePath o [0, 1, 2, 3] [] 0
  · intro k hk hbefore hfull
    rw [hstart]
    interval_cases k
    · rw [resolveLoop_step_full localPaths basePath o 0 hfull]
    · obtain ⟨a1, e1⟩ := resolveLoop_step_notfull localPaths basePath o 0
        (hbefore 0 (by omega)) [1, 2, 3] [] 0
      rw [e1, resolveLoop_step_full localPaths basePath o 1 hfull]
    · obtain ⟨a1, e1⟩ := resolveLoop_step_notfull localPaths basePath o 0
        (hbefore 0 (by omega)) [1, 2, 3] [] 0
      obtain ⟨a2, e2⟩ := resolveLoop_step_notfull localPaths basePath o 1
        (hbefore 1 (by omega)) [2, 3] a1 1
      rw [e1, e2, resolveLoop_step_full localPaths basePath o 2 hfull]
    · obtain ⟨a1, e1⟩ := resolveLoop_step_notfull localPaths basePath o 0
        (hbefore 0 (by omega)) [1, 2, 3] [] 0
      obtain ⟨a2, e2⟩ := resolveLoop_step_notfull localPaths basePath o 1
        (hbefore 1 (by omega)) [2, 3] a1 1
      obtain ⟨a3, e3⟩ := resolveLoop_step_notfull localPaths basePath o 2
        (hbefore 2 (by omega)) [3] a2 2
      rw [e1, e2, e3, resolveLoop_step_full localPaths basePath o 3 hfull]

/-- Oracle for the C3 witness: strategy 0 answers with data but resolves
nothing, strategy 1 resolves the single path. -/
def c3WitnessOracle : Nat → StrategyOutcome := fun i =>
  if i = 0 then .responded ⟨true, fun _ => none⟩
  else if i = 1 then
    .responded ⟨true, fun p => if p = "/b/Data/A" then some "g" else none⟩
  else .responded ⟨false, fun _ => none⟩

theorem spec_c3_resolver_calls_witness :
    resolveLocalDatasourcePaths true ["A"] "/b" "ctx" "en" c3WitnessOracle
      = (strategyResultRec ["A"] "/b" c3WitnessOracle 1, 2) :=
  (spec_c3_resolver_calls ["A"] "/b" "ctx" "en" c3WitnessOracle (by decide)).2 1
    (by decide) (by decide) (by decide)

/-! ## Claim C1 -/

/-- Strategy-0 response in the write-once counterscenario: only `/base/A`
resolves. -/
def c1Resp0 : EdgeResponse :=
  ⟨true, fun p => if p = "/base/A" then some "11111111-1111-1111-1111-111111111111" else none⟩

/-- Strategy-1 response: only `/base/Data/B` resolves. -/
def c1Resp1 : EdgeResponse :=
  ⟨true, fun p => if p = "/base/Data/B" then some "22222222-2222-2222-2222-222222222222" else none⟩

/-- The backend behaviour exercising the overwrite: strategies 2 and 3
respond without data. -/
def c1Oracle : Nat → StrategyOutcome := fun i =>
  if i = 0 then .responded c1Resp0
  else if i = 1 then .responded c1Resp1
  else .responded ⟨false, fun _ => none⟩

/-- Claim C1: evaluation of the resolver on the failing input. Strategy 0 resolves
path "A" to a non-null id (first conjunct), yet after strategy 1 — which
resolves only "B" — the final accumulator maps "A" back to `null` (second
conjunct): the merge `{ ...resolvedItems, ...result }` lets the later
partial result overwrite the already-resolved entry, contradicting the
write-once property the spec states and the accumulation the code's own
comments intend. -/
theorem spec_c1_code_eval :
    (buildStrategyResult ["A", "B"] "/base" 0 c1Resp0).1
        = [("A", some "11111111-1111-1111-1111-111111111111"), ("B", none)]
    ∧ (resolveLocalDatasourcePaths true ["A", "B"] "/base" "ctx" "en" c1Oracle).1
        = [("A", none), ("B", some "22222222-2222-2222-2222-222222222222")] := by
  constructor
  · rfl
  · rfl

/-! ## Claim C4 -/

/-- A backend for which every strategy responds with data but resolves no
path at all. -/
def c4Oracle : Nat → StrategyOutcome := fun _ => .responded ⟨true, fun _ => none⟩

/-- Claim C4 counterexample: with one input path "A" and no strategy resolving
anything, the resolver returns the empty record — the claim's promised
`"A" ↦ null` entry is absent (the per-strategy `result` records, which do
hold the `null`s, are only merged into the accumulator when a strategy
resolved at least one path). -/
theorem spec_c4_counterexample :
    (resolveLocalDatasourcePaths true ["A"] "/base" "ctx" "en" c4Oracle).1 = []
    ∧ alistGet (resolveLocalDatasourcePaths true ["A"] "/base" "ctx" "en" c4Oracle).1 "A"
        = none := by
  constructor
  · rfl
  · rfl

/-- Claim C4 (amended): after exhausting all strategies without fully resolving
the set, the returned map has an entry for every input path — unresolved
ones mapped to `null` — provided at least one strategy resolved at least
one path; when no strategy resolved any path the map is empty, so the
input paths are absent rather than mapped to `null`. -/
theorem spec_c4_amended (localPaths : List String) (basePath ctxId lang : String)
    (o : Nat → StrategyOutcome) (hne : localPaths ≠ [])
    (hnotfull : ∀ i, i < 4 → fullAt localPaths basePath o i = false)
    (hsome : ∃ i, i < 4 ∧ someFoundAt localPaths basePath o i = true) :
    ∀ p ∈ localPaths,
      (alistGet (resolveLocalDatasourcePaths true localPaths basePath ctxId lang o).1 p).isSome := by
  intro p hp
  have hstart : resolveLocalDatasourcePaths true localPaths basePath ctxId lang o
      = resolveLoop localPaths basePath o [0, 1, 2, 3] [] 0 := by
    simp [resolveLocalDatasourcePaths, hne]
  rw [hstart]
  refine resolveLoop_allkeys localPaths basePath o [0, 1, 2, 3] [] 0
    (fun i hi => hnotfull i ((mem_strategy_indices i).mp hi)) ?_ p hp
  obtain ⟨i, hi, his⟩ := hsome
  exact Or.inl ⟨i, (mem_strategy_indices i).mpr hi, his⟩

/-- Backend for the C4 witness: strategy 0 resolves "A" only; nothing else
resolves and no strategy is full (there are two paths). -/
def c4WitnessOracle : Nat → StrategyOutcome := fun i =>
  if i = 0 then
    .responded ⟨true, fun p => if p = "/b/A" then some "g" else none⟩
  else .responded ⟨false, fun _ => none⟩

theorem spec_c4_amended_witness :
    (alistGet (resolveLocalDatasourcePaths true ["A", "B"] "/b" "ctx" "en" c4WitnessOracle).1
      "B").isSome :=
  spec_c4_amended ["A", "B"] "/b" "ctx" "en" c4WitnessOracle (by decide)
    (by decide) ⟨0, by decide, by decide⟩ "B" (by decide)

/-! ## Claim C5 -/

theorem validateNested_fold_not_mem (g : String) :
    ∀ (vals : List (Option AuthItem)) (acc : List String),
      g ∉ acc →
      (∀ oitem ∈ vals, canonGuid (nestedIdOf oitem) = g →
        nestedPathOf oitem = "" ∨
          ∃ ep ∈ excludedPathsList, jsStartsWith (nestedPathOf oitem) ep) →
      g ∉ vals.foldl validateStep acc := by
  intro vals
  induction vals with
  | nil =>
    intro acc hacc _
    simpa using hacc
  | cons oitem rest ih =>
    intro acc hacc hbad
    simp only [List.foldl_cons]
    refine ih (validateStep acc oitem) ?_
      (fun oi hoi => hbad oi (List.mem_cons_of_mem oitem hoi))
    by_cases hkeep :
        (¬ excludedPathsList.any (fun ep => jsStartsWith (nestedPathOf oitem) ep) = true)
        ∧ nestedPathOf oitem ≠ ""
    · have hstep : validateStep acc oitem = acc ++ [canonGuid (nestedIdOf oitem)] := by
        unfold validateStep
        exact if_pos hkeep
      rw [hstep]
      intro hmem
      rcases List.mem_append.mp hmem with h | h
      · exact hacc h
      · have hg : canonGuid (nestedIdOf oitem) = g := (List.mem_singleton.mp h).symm
        rcases hbad oitem (List.mem_cons_self oitem rest) hg with hempty | ⟨ep, hep, hsw⟩
        · exact hkeep.2 hempty
        · exact hkeep.1 (List.any_eq_true.mpr ⟨ep, hep, hsw⟩)
    · have hstep : validateStep acc oitem = acc := by
        unfold validateStep
        exact if_neg hkeep
      rw [hstep]
      exact hacc

/-- Claim C5: a discovered candidate whose authoring-resolved path is empty or
lies under an excluded prefix never enters the validated nested set — the
list that alone is appended to the unified identifier list as nested
entries — no matter how many parents reference it. The candidate's
authoring data is the response entries bearing its canonical id. -/
theorem spec_c5_validator (vals : List (Option AuthItem)) (g : String)
    (hbad : ∀ oitem ∈ vals, canonGuid (nestedIdOf oitem) = g →
      nestedPathOf oitem = "" ∨
        ∃ ep ∈ excludedPathsList, jsStartsWith (nestedPathOf oitem) ep) :
    g ∉ validateNested vals :=
  validateNested_fold_not_mem g vals [] (by simp) hbad

/-- Validation response for the C5 witness: the candidate's item sits under
`/sitecore/system/`. -/
def c5WitnessVals : List (Option AuthItem) :=
  [some { itemId := some "AAAAAAAA-BBBB-CCCC-DDDD-EEEEEEEEEEEE"
          name := some "Broken"
          path := some "/sitecore/system/Settings/Broken"
          version := some "1"
          template := none
          language := some "en"
          fields := none }]

set_option maxRecDepth 4000 in
theorem spec_c5_validator_witness :
    "AAAAAAAA-BBBB-CCCC-DDDD-EEEEEEEEEEEE" ∉ validateNested c5WitnessVals :=
  spec_c5_validator c5WitnessVals "AAAAAAAA-BBBB-CCCC-DDDD-EEEEEEEEEEEE"
    (by decide)

/-! ## Extractor lemmas: flattening to the discovered-pair list -/

theorem not_contains_not_mem (l : List String) (a : String)
    (h : ¬ l.contains a = true) : a ∉ l := by
  intro hm
  exact h (by simpa using hm)

theorem foldPairs_append (ids : List String) (l1 l2 : List (ParentInfo × String))
    (st : ExtractState) :
    foldPairs ids (l1 ++ l2) st = foldPairs ids l2 (foldPairs ids l1 st) := by
  simp [foldPairs, List.foldl_append]

theorem processField_eq_foldPairs (ids : List String) (pinfo : ParentInfo)
    (st : ExtractState) (f : FieldNode) :
    processField ids pinfo st f
      = foldPairs ids ((fieldMatches f).map (fun m => (pinfo, m))) st := by
  unfold processField fieldMatches
  cases f.value with
  | none => simp [foldPairs]
  | some v =>
    by_cases hv : v ≠ ""
    · by_cases hsys : isSystemField f.name
      · simp [hv, hsys, foldPairs]
      · simp [hv, hsys, foldPairs, List.foldl_map]
    · simp [hv, foldPairs]

theorem processFields_eq_foldPairs (ids : List String) (pinfo : ParentInfo) :
    ∀ (nodes : List FieldNode) (st : ExtractState),
      nodes.foldl (processField ids pinfo) st
        = foldPairs ids ((fieldMatchList nodes).map (fun m => (pinfo, m))) st := by
  intro nodes
  induction nodes with
  | nil => intro st; simp [fieldMatchList, foldPairs]
  | cons f fs ih =>
    intro st
    simp only [List.foldl_cons, fieldMatchList, List.map_append, foldPairs_append]
    rw [← processField_eq_foldPairs, ih]

theorem processItem_eq_foldPairs (ids : List String) (st : ExtractState)
    (oitem : Option AuthItem) :
    processItem ids st oitem = foldPairs ids (itemDiscoveredPairs oitem) st := by
  cases oitem with
  | none => simp [processItem, itemDiscoveredPairs, foldPairs]
  | some item =>
    cases hf : item.fields with
    | none => simp [processItem, itemDiscoveredPairs, hf, foldPairs]
    | some nodes =>
      simp only [processItem, itemDiscoveredPairs, hf]
      exact processFields_eq_foldPairs ids (mkParentInfo item nodes) nodes st

theorem foldl_processItem_eq (ids : List String) :
    ∀ (vals : List (Option AuthItem)) (st : ExtractState),
      vals.foldl (processItem ids) st = foldPairs ids (discoveredPairs vals) st := by
  intro vals
  induction vals with
  | nil => intro st; simp [discoveredPairs, foldPairs]
  | cons oi rest ih =>
    intro st
    simp only [List.foldl_cons, discoveredPairs, foldPairs_append]
    rw [← processItem_eq_foldPairs, ih]

theorem extractReferences_eq_foldPairs (vals : List (Option AuthItem)) (ids : List String) :
    extractReferences vals ids = foldPairs ids (discoveredPairs vals) ⟨[], []⟩ :=
  foldl_processItem_eq ids vals ⟨[], []⟩

/-- The map after one `recordReference` step, as a plain rewrite. -/
theorem recordReference_map_eq (ids : List String) (pinfo : ParentInfo)
    (st : ExtractState) (m : String) :
    (recordReference ids pinfo st m).referencedByMap
      = alistSet st.referencedByMap (canonGuid m)
          (if ((alistGet st.referencedByMap (canonGuid m)).getD []).any
                (fun r => r.id = pinfo.id)
           then (alistGet st.referencedByMap (canonGuid m)).getD []
           else (alistGet st.referencedByMap (canonGuid m)).getD [] ++ [pinfo]) := rfl

/-- The nested queue after one `recordReference` step, as a plain rewrite. -/
theorem recordReference_nested_eq (ids : List String) (pinfo : ParentInfo)
    (st : ExtractState) (m : String) :
    (recordReference ids pinfo st m).nestedItemIds
      = if ¬ ids.contains (canonGuid m) = true
            ∧ ¬ st.nestedItemIds.contains (canonGuid m) = true
        then st.nestedItemIds ++ [canonGuid m] else st.nestedItemIds := rfl

/-! ## Extractor invariants -/

theorem recordReference_nested_not_in_ids (ids : List String) (pinfo : ParentInfo)
    (st : ExtractState) (m : String)
    (inv : ∀ g ∈ st.nestedItemIds, g ∉ ids) :
    ∀ g ∈ (recordReference ids pinfo st m).nestedItemIds, g ∉ ids := by
  intro g hg
  rw [recordReference_nested_eq] at hg
  by_cases hcond : ¬ ids.contains (canonGuid m) = true
      ∧ ¬ st.nestedItemIds.contains (canonGuid m) = true
  · rw [if_pos hcond] at hg
    rcases List.mem_append.mp hg with h | h
    · exact inv g h
    · have hge := List.mem_singleton.mp h
      rw [hge]
      exact not_contains_not_mem ids (canonGuid m) hcond.1
  · rw [if_neg hcond] at hg
    exact inv g hg

theorem foldPairs_nested_not_in_ids (ids : List String) :
    ∀ (l : List (ParentInfo × String)) (st : ExtractState),
      (∀ g ∈ st.nestedItemIds, g ∉ ids) →
      ∀ g ∈ (foldPairs ids l st).nestedItemIds, g ∉ ids := by
  intro l
  induction l with
  | nil => intro st inv; simpa [foldPairs] using inv
  | cons pm rest ih =>
    intro st inv
    simp only [foldPairs, List.foldl_cons]
    exact ih (recordReference ids pm.1 st pm.2)
      (recordReference_nested_not_in_ids ids pm.1 st pm.2 inv)

/-- Parent `pid` is recorded (by id) under key `g` in the state's map. -/
def parentRecorded (st : ExtractState) (g : String) (pid : String) : Prop :=
  ∃ refs, alistGet st.referencedByMap g = some refs ∧ ∃ r ∈ refs, r.id = pid

theorem recordReference_preserves_parent (ids : List String) (pinfo : ParentInfo)
    (st : ExtractState) (m : String) (g pid : String)
    (h : parentRecorded st g pid) : parentRecorded (recordReference ids pinfo st m) g pid := by
  obtain ⟨refs, hget, r, hr, hrid⟩ := h
  by_cases hk : canonGuid m = g
  · subst hk
    by_cases hany : (refs.any (fun x => x.id = pinfo.id)) = true
    · refine ⟨refs, ?_, r, hr, hrid⟩
      rw [recordReference_map_eq, hget]
      simp only [Option.getD_some]
      rw [if_pos hany]
      exact alistGet_set_self st.referencedByMap (canonGuid m) refs
    · refine ⟨refs ++ [pinfo], ?_, r, List.mem_append_left _ hr, hrid⟩
      rw [recordReference_map_eq, hget]
      simp only [Option.getD_some]
      rw [if_neg hany]
      exact alistGet_set_self st.referencedByMap (canonGuid m) (refs ++ [pinfo])
  · refine ⟨refs, ?_, r, hr, hrid⟩
    rw [recordReference_map_eq,
      alistGet_set_ne st.referencedByMap (canonGuid m) g _ (fun he => hk he.symm)]
    exact hget

theorem recordReference_establishes_parent (ids : List String) (pinfo : ParentInfo)
    (st : ExtractState) (m : String) :
    parentRecorded (recordReference ids pinfo st m) (canonGuid m) pinfo.id := by
  have hself : alistGet (recordReference ids pinfo st m).referencedByMap (canonGuid m)
      = some (if ((alistGet st.referencedByMap (canonGuid m)).getD []).any
                  (fun r => r.id = pinfo.id)
              then (alistGet st.referencedByMap (canonGuid m)).getD []
              else (alistGet st.referencedByMap (canonGuid m)).getD [] ++ [pinfo]) := by
    rw [recordReference_map_eq]
    exact alistGet_set_self st.referencedByMap (canonGuid m) _
  by_cases hany : (((alistGet st.referencedByMap (canonGuid m)).getD []).any
      (fun r => r.id = pinfo.id)) = true
  · obtain ⟨r, hr, hrid⟩ := List.any_eq_true.mp hany
    refine ⟨_, hself, r, ?_, of_decide_eq_true hrid⟩
    rw [if_pos hany]
    exact hr
  · refine ⟨_, hself, pinfo, ?_, rfl⟩
    rw [if_neg hany]
    exact List.mem_append_right _ (List.mem_singleton.mpr rfl)

theorem foldPairs_preserves_parent (ids : List String) :
    ∀ (l : List (ParentInfo × String)) (st : ExtractState) (g pid : String),
      parentRecorded st g pid → parentRecorded (foldPairs ids l st) g pid := by
  intro l
  induction l with
  | nil => intro st g pid h; simpa [foldPairs] using h
  | cons pm rest ih =>
    intro st g pid h
    simp only [foldPairs, List.foldl_cons]
    exact ih (recordReference ids pm.1 st pm.2) g pid
      (recordReference_preserves_parent ids pm.1 st pm.2 g pid h)

theorem foldPairs_parent_recorded (ids : List String) (l : List (ParentInfo × String))
    (st : ExtractState) (pm : ParentInfo × String) (hmem : pm ∈ l) :
    parentRecorded (foldPairs ids l st) (canonGuid pm.2) pm.1.id := by
  obtain ⟨l1, l2, rfl⟩ := List.append_of_mem hmem
  rw [foldPairs_append]
  have : foldPairs ids (pm :: l2) (foldPairs ids l1 st)
      = foldPairs ids l2 (recordReference ids pm.1 (foldPairs ids l1 st) pm.2) := by
    simp [foldPairs]
  rw [this]
  exact foldPairs_preserves_parent ids l2 _ _ _
    (recordReference_establishes_parent ids pm.1 (foldPairs ids l1 st) pm.2)

/-- Every parent list in the map is deduplicated by parent id. -/
def refMapDeduped (st : ExtractState) : Prop :=
  ∀ g refs, alistGet st.referencedByMap g = some refs → (refs.map (fun r => r.id)).Nodup

theorem recordReference_preserves_deduped (ids : List String) (pinfo : ParentInfo)
    (st : ExtractState) (m : String) (h : refMapDeduped st) :
    refMapDeduped (recordReference ids pinfo st m) := by
  intro g refs hget
  rw [recordReference_map_eq] at hget
  by_cases hk : canonGuid m = g
  · subst hk
    rw [alistGet_set_self] at hget
    have hnodup0 : (((alistGet st.referencedByMap (canonGuid m)).getD []).map
        (fun r => r.id)).Nodup := by
      cases hcase : alistGet st.referencedByMap (canonGuid m) with
      | none => simp
      | some rs => simpa [hcase] using h (canonGuid m) rs hcase
    by_cases hany : (((alistGet st.referencedByMap (canonGuid m)).getD []).any
        (fun r => r.id = pinfo.id)) = true
    · rw [if_pos hany] at hget
      rw [← Option.some.inj hget]
      exact hnodup0
    · rw [if_neg hany] at hget
      rw [← Option.some.inj hget]
      have hnotin : pinfo.id ∉ ((alistGet st.referencedByMap (canonGuid m)).getD []).map
          (fun r => r.id) := by
        intro hmem
        obtain ⟨r, hr, hrid⟩ := List.mem_map.mp hmem
        exact hany (List.any_eq_true.mpr ⟨r, hr, decide_eq_true hrid⟩)
      simp [List.nodup_append, hnodup0, hnotin]
  · rw [alistGet_set_ne st.referencedByMap (canonGuid m) g _ (fun he => hk he.symm)] at hget
    exact h g refs hget

theorem foldPairs_deduped (ids : List String) :
    ∀ (l : List (ParentInfo × String)) (st : ExtractState),
      refMapDeduped st → refMapDeduped (foldPairs ids l st) := by
  intro l
  induction l with
  | nil => intro st h; exact h
  | cons pm rest ih =>
    intro st h
    simp only [foldPairs, List.foldl_cons]
    exact ih (recordReference ids pm.1 st pm.2)
      (recordReference_preserves_deduped ids pm.1 st pm.2 h)

/-! ## Claim C2 -/

/-- Claim C2: for every candidate reference the extractor discovers in an
authoring field value — given as the (parent, raw match) pairs of
`discoveredPairs` — a candidate whose canonical form is already in the main
identifier list never enters the nested-fetch queue, yet in every case the
discovering parent is recorded under the candidate's canonical key in the
child-to-parents map, and that parent list holds each parent id at most
once. -/
theorem spec_c2_extractor (vals : List (Option AuthItem)) (ids : List String) :
    (∀ pm ∈ discoveredPairs vals, canonGuid pm.2 ∈ ids →
      canonGuid pm.2 ∉ (extractReferences vals ids).nestedItemIds)
    ∧ (∀ pm ∈ discoveredPairs vals,
      ∃ refs,
        alistGet (extractReferences vals ids).referencedByMap (canonGuid pm.2) = some refs
        ∧ (∃ r ∈ refs, r.id = pm.1.id)
        ∧ (refs.map (fun r => r.id)).Nodup) := by
  constructor
  · intro pm _ hin hmem
    rw [extractReferences_eq_foldPairs] at hmem
    exact foldPairs_nested_not_in_ids ids (discoveredPairs vals) ⟨[], []⟩
      (by simp) (canonGuid pm.2) hmem hin
  · intro pm hpm
    rw [extractReferences_eq_foldPairs]
    obtain ⟨refs, hget, hr⟩ := foldPairs_parent_recorded ids (discoveredPairs vals) ⟨[], []⟩ pm hpm
    have hded := foldPairs_deduped ids (discoveredPairs vals) ⟨[], []⟩
      (by intro g refs h; simp [alistGet] at h)
    exact ⟨refs, hget, hr, hded (canonGuid pm.2) refs hget⟩

/-- Field of the C2 witness: its value embeds a braced GUID. -/
def c2WitnessField : FieldNode :=
  ⟨"Related Items", some "Related: \x7bAAAAAAAA-BBBB-CCCC-DDDD-EEEEEEEEEEEE\x7d"⟩

/-- Authoring item of the C2 witness. -/
def c2WitnessItem : AuthItem :=
  { itemId := some "\x7b99999999-8888-7777-6666-555555555555\x7d"
    name := some "Parent Page"
    path := some "/sitecore/content/Home"
    version := some "3"
    template := some "Page"
    language := some "en"
    fields := some [c2WitnessField] }

def c2WitnessVals : List (Option AuthItem) := [some c2WitnessItem]

/-- Main identifier list of the C2 witness: it already holds the referenced
GUID in canonical form. -/
def c2WitnessIds : List String := ["AAAAAAAA-BBBB-CCCC-DDDD-EEEEEEEEEEEE"]

/-- The discovered (parent, raw match) pair of the C2 witness. -/
def c2WitnessPair : ParentInfo × String :=
  (mkParentInfo c2WitnessItem [c2WitnessField],
   "\x7bAAAAAAAA-BBBB-CCCC-DDDD-EEEEEEEEEEEE\x7d")

set_option maxRecDepth 20000 in
theorem spec_c2_extractor_witness :
    canonGuid "\x7bAAAAAAAA-BBBB-CCCC-DDDD-EEEEEEEEEEEE\x7d"
      ∉ (extractReferences c2WitnessVals c2WitnessIds).nestedItemIds :=
  (spec_c2_extractor c2WitnessVals c2WitnessIds).1 c2WitnessPair (by decide) (by decide)

/-! ## Canonical-form and dedup lemmas for the unified identifier list -/

theorem alistGet_mem {β : Type} : ∀ (m : List (String × β)) (k : String) (v : β),
    alistGet m k = some v → (k, v) ∈ m := by
  intro m
  induction m with
  | nil => intro k v h; simp [alistGet] at h
  | cons p rest ih =>
    intro k v h
    rw [alistGet] at h
    by_cases hp : p.1 = k
    · rw [if_pos hp] at h
      have hv := Option.some.inj h
      rw [← hp, ← hv]
      exact List.mem_cons_self p rest
    · rw [if_neg hp] at h
      exact List.mem_cons_of_mem p (ih k v h)

/-- Every non-null value stored in the record is the canonical form of some
raw id. -/
def entriesCanon (m : PathRec) : Prop :=
  ∀ pr ∈ m, ∀ v, pr.2 = some v → ∃ iid, v = canonGuid iid

theorem entriesCanon_nil : entriesCanon [] := by
  intro pr hpr
  cases hpr

theorem entriesCanon_set : ∀ (m : PathRec) (k : String) (vnew : Option String),
    entriesCanon m → (∀ v, vnew = some v → ∃ iid, v = canonGuid iid) →
    entriesCanon (alistSet m k vnew) := by
  intro m
  induction m with
  | nil =>
    intro k vnew _ hv pr hpr v hpv
    have hpr' : pr = (k, vnew) := List.mem_singleton.mp hpr
    rw [hpr'] at hpv
    exact hv v hpv
  | cons p rest ih =>
    intro k vnew hm hv pr hpr v hpv
    by_cases hp : p.1 = k
    · rw [alistSet, if_pos hp] at hpr
      rcases List.mem_cons.mp hpr with heq | hpr'
      · rw [heq] at hpv
        exact hv v hpv
      · exact hm pr (List.mem_cons_of_mem p hpr') v hpv
    · rw [alistSet, if_neg hp] at hpr
      rcases List.mem_cons.mp hpr with heq | hpr'
      · exact hm pr (by rw [heq]; exact List.mem_cons_self p rest) v hpv
      · exact ih k vnew (fun q hq => hm q (List.mem_cons_of_mem p hq)) hv pr hpr' v hpv

theorem strategyStep_fold_entriesCanon (bp : String) (i : Nat) (r : EdgeResponse) :
    ∀ (lp : List String) (acc : PathRec × Nat),
      entriesCanon acc.1 → entriesCanon ((lp.foldl (strategyStep bp i r) acc).1) := by
  intro lp
  induction lp with
  | nil => intro acc hacc; exact hacc
  | cons q rest ih =>
    intro acc hacc
    simp only [List.foldl_cons]
    refine ih (strategyStep bp i r acc q) ?_
    unfold strategyStep
    cases hcase : r.item (strategyApply i q bp) with
    | none => exact entriesCanon_set acc.1 q none hacc (fun v h => Option.noConfusion h)
    | some iid =>
      dsimp only
      by_cases hiid : iid ≠ ""
      · rw [if_pos hiid]
        exact entriesCanon_set acc.1 q (some (canonGuid iid)) hacc
          (fun v h => ⟨iid, (Option.some.inj h).symm⟩)
      · rw [if_neg hiid]
        exact entriesCanon_set acc.1 q none hacc (fun v h => Option.noConfusion h)

theorem buildStrategyResult_entriesCanon (lp : List String) (bp : String) (i : Nat)
    (r : EdgeResponse) : entriesCanon (buildStrategyResult lp bp i r).1 := by
  unfold buildStrategyResult
  by_cases hd : r.hasData = true
  · rw [if_pos hd]
    exact strategyStep_fold_entriesCanon bp i r lp ([], 0) entriesCanon_nil
  · rw [if_neg hd]
    exact entriesCanon_nil

theorem recMerge_entriesCanon : ∀ (b a : PathRec),
    entriesCanon a → entriesCanon b → entriesCanon (recMerge a b) := by
  intro b
  induction b with
  | nil => intro a ha _; exact ha
  | cons q rest ih =>
    intro a ha hb
    have hstep : recMerge a (q :: rest) = recMerge (alistSet a q.1 q.2) rest := rfl
    rw [hstep]
    refine ih (alistSet a q.1 q.2) ?_ (fun pr h => hb pr (List.mem_cons_of_mem q h))
    exact entriesCanon_set a q.1 q.2 ha (fun v hv => hb q (List.mem_cons_self q rest) v hv)

theorem resolveLoop_entriesCanon (lp : List String) (bp : String)
    (o : Nat → StrategyOutcome) : ∀ (l : List Nat) (acc : PathRec) (c : Nat),
      entriesCanon acc → entriesCanon (resolveLoop lp bp o l acc c).1 := by
  intro l
  induction l with
  | nil => intro acc c hacc; exact hacc
  | cons i rest ih =>
    intro acc c hacc
    rw [resolveLoop]
    cases ho : o i with
    | threw e => exact ih acc (c + 1) hacc
    | responded r =>
      by_cases hf : (buildStrategyResult lp bp i r).2 = lp.length
      · simp only [hf, if_true]
        exact buildStrategyResult_entriesCanon lp bp i r
      · simp only [hf, if_false]
        by_cases hpos : 0 < (buildStrategyResult lp bp i r).2
        · simp only [hpos, if_true]
          exact ih _ (c + 1)
            (recMerge_entriesCanon _ acc hacc (buildStrategyResult_entriesCanon lp bp i r))
        · simp only [hpos, if_false]
          exact ih acc (c + 1) hacc

theorem resolver_values_canonical (lp : List String) (bp cid lang : String)
    (o : Nat → StrategyOutcome) (p v : String)
    (h : alistGet (resolveLocalDatasourcePaths true lp bp cid lang o).1 p = some (some v)) :
    ∃ iid, v = canonGuid iid := by
  have hec : entriesCanon (resolveLocalDatasourcePaths true lp bp cid lang o).1 := by
    by_cases hl : lp = []
    · simp only [resolveLocalDatasourcePaths, hl]
      simp [entriesCanon_nil]
    · simp only [resolveLocalDatasourcePaths, hl]
      simp only [or_false, not_true_eq_false, if_false]
      exact resolveLoop_entriesCanon lp bp o [0, 1, 2, 3] [] 0 entriesCanon_nil
  exact hec (p, some v) (alistGet_mem _ p (some v) h) v rfl

theorem recordReference_nested_canonical (ids : List String) (pinfo : ParentInfo)
    (st : ExtractState) (m : String)
    (inv : ∀ g ∈ st.nestedItemIds, ∃ m0, g = canonGuid m0) :
    ∀ g ∈ (recordReference ids pinfo st m).nestedItemIds, ∃ m0, g = canonGuid m0 := by
  intro g hg
  rw [recordReference_nested_eq] at hg
  by_cases hcond : ¬ ids.contains (canonGuid m) = true
      ∧ ¬ st.nestedItemIds.contains (canonGuid m) = true
  · rw [if_pos hcond] at hg
    rcases List.mem_append.mp hg with h | h
    · exact inv g h
    · exact ⟨m, List.mem_singleton.mp h⟩
  · rw [if_neg hcond] at hg
    exact inv g hg

theorem foldPairs_nested_canonical (ids : List String) :
    ∀ (l : List (ParentInfo × String)) (st : ExtractState),
      (∀ g ∈ st.nestedItemIds, ∃ m0, g = canonGuid m0) →
      ∀ g ∈ (foldPairs ids l st).nestedItemIds, ∃ m0, g = canonGuid m0 := by
  intro l
  induction l with
  | nil => intro st inv; exact inv
  | cons pm rest ih =>
    intro st inv
    simp only [foldPairs, List.foldl_cons]
    exact ih (recordReference ids pm.1 st pm.2)
      (recordReference_nested_canonical ids pm.1 st pm.2 inv)

theorem addResolved_nodup : ∀ (r : PathRec) (ids : List String),
    ids.Nodup → (addResolved ids r).Nodup := by
  intro r
  induction r with
  | nil => intro ids h; exact h
  | cons pr rest ih =>
    intro ids h
    have hstep : (addResolvedStep ids pr).Nodup := by
      unfold addResolvedStep
      cases pr.2 with
      | none => exact h
      | some rid =>
        dsimp only
        by_cases hc : rid ≠ "" ∧ ¬ ids.contains rid = true
        · rw [if_pos hc]
          have hnm : rid ∉ ids := not_contains_not_mem ids rid hc.2
          simp [List.nodup_append, h, hnm]
        · rw [if_neg hc]
          exact h
    exact ih (addResolvedStep ids pr) hstep

/-! ## Claim C7 -/

/-- Claim C7 counterexample: with a caller-supplied override list the initial ids
enter the unified list verbatim — no canonicalization and no dedup — so a
duplicated override id appears twice in the final unified identifier list. -/
theorem spec_c7_counterexample :
    unifiedItemIds ["X", "X"] [] [] [] = ["X", "X"]
    ∧ ¬ (unifiedItemIds ["X", "X"] [] [] []).Nodup := by
  constructor
  · rfl
  · decide

/-- Claim C7 (amended): identifiers the pipeline itself discovers are
canonicalized before any membership test — every non-null resolver value and
every extractor-queued id is the canonical form of a raw id (second and
third conjuncts) — and the final unified list is duplicate-free whenever the
initial id list is duplicate-free and the validated nested ids are
duplicate-free and drawn from the extractor's queue (first conjunct). A
caller-supplied override list, however, is used verbatim: its entries are
neither canonicalized nor deduplicated. -/
theorem spec_c7_amended (initIds : List String) (resolvedPaths : PathRec)
    (authVals validationVals : List (Option AuthItem))
    (h1 : initIds.Nodup)
    (h2 : (validateNested validationVals).Nodup)
    (h3 : ∀ g ∈ validateNested validationVals,
        g ∈ (extractReferences authVals (addResolved initIds resolvedPaths)).nestedItemIds) :
    (unifiedItemIds initIds resolvedPaths authVals validationVals).Nodup
    ∧ (∀ g ∈ (extractReferences authVals (addResolved initIds resolvedPaths)).nestedItemIds,
        ∃ m, g = canonGuid m)
    ∧ (∀ (lp : List String) (bp cid lang : String) (o : Nat → StrategyOutcome) (p v : String),
        alistGet (resolveLocalDatasourcePaths true lp bp cid lang o).1 p = some (some v) →
        ∃ iid, v = canonGuid iid) := by
  refine ⟨?_, ?_, ?_⟩
  · simp only [unifiedItemIds]
    by_cases hc : (extractReferences authVals (addResolved initIds resolvedPaths)).nestedItemIds
        = []
    · rw [if_pos hc]
      simpa using addResolved_nodup resolvedPaths initIds h1
    · rw [if_neg hc]
      refine List.Nodup.append (addResolved_nodup resolvedPaths initIds h1) h2 ?_
      intro a ha hv
      have hnested := h3 a hv
      rw [extractReferences_eq_foldPairs] at hnested
      exact foldPairs_nested_not_in_ids _ _ _ (by simp) a hnested ha
  · intro g hg
    rw [extractReferences_eq_foldPairs] at hg
    exact foldPairs_nested_canonical _ _ _ (by simp) g hg
  · intro lp bp cid lang o p v h
    exact resolver_values_canonical lp bp cid lang o p v h

theorem spec_c7_amended_witness :
    (unifiedItemIds ["A"] [("p", some "B")] [] []).Nodup :=
  (spec_c7_amended ["A"] [("p", some "B")] [] [] (by decide) (by decide) (by decide)).1

/-! ## Claim C9 -/

/-- Claim C9: the live-store lookup depends only on the identifier list,
language, token and endpoint behaviour. The `_client` and
`_sitecoreContextId` arguments are never consulted, so two calls differing
only in them produce the identical result — and the single request handed
to the endpoint, `buildLiveRequest itemIds language`, mentions neither. -/
theorem spec_c9_live_independent (c c' : Bool) (s s' : Option String)
    (itemIds : List String) (language token : String) (endpoint : LiveEndpoint) :
    getItemsFromLive c itemIds s language token endpoint
      = getItemsFromLive c' itemIds s' language token endpoint := rfl

/-! ## Claim C6 -/

/-- Claim C6: a failing source query is caught inside that source's fetch
function and becomes an error marker (`data` absent, `error` set) for that
source only; the other source's result does not depend on it at all; and a
cycle run against a world whose context extraction succeeds publishes a
result with no error — no exception escapes the fan-out — whatever either
endpoint does. -/
theorem spec_c6_partial_failure (itemIds : List String) (ctxId : Option String)
    (language token e : String) (aEp aEp' : AuthEndpoint) (lEp lEp' : LiveEndpoint)
    (status : Nat) (hne : itemIds ≠ []) :
    ((lEp (buildLiveRequest itemIds language) = .netThrew e → token ≠ "" →
        (dualSourceFetch true itemIds ctxId language token aEp lEp).2 = ⟨none, some e⟩)
      ∧ (lEp (buildLiveRequest itemIds language) = .httpError status → token ≠ "" →
          (dualSourceFetch true itemIds ctxId language token aEp lEp).2
            = ⟨none, some ("HTTP error! status: " ++ toString status)⟩)
      ∧ (aEp ctxId itemIds language = .threw e →
          (dualSourceFetch true itemIds ctxId language token aEp lEp).1 = ⟨none, some e⟩)
      ∧ (dualSourceFetch true itemIds ctxId language token aEp lEp).1
          = (dualSourceFetch true itemIds ctxId language token aEp lEp').1
      ∧ (dualSourceFetch true itemIds ctxId language token aEp lEp).2
          = (dualSourceFetch true itemIds ctxId language token aEp' lEp).2)
    ∧ (∀ (ρ π : Type) (w : FetchWorld ρ π) (st : HookState ρ π) (ext : ExtractionResult),
        w.clientPresent = true → w.isInitialized = true →
        w.pagesContextOutcome = .ok ext → ext.itemIds ≠ [] →
        (fetchItemInformation w none st).error = none
        ∧ (fetchItemInformation w none st).data.isSome) := by
  refine ⟨⟨?_, ?_, ?_, rfl, rfl⟩, ?_⟩
  · intro h ht
    simp [dualSourceFetch, getItemsFromLive, hne, ht, h]
  · intro h ht
    simp [dualSourceFetch, getItemsFromLive, hne, ht, h]
  · intro h
    simp [dualSourceFetch, getItemsFromAuthoring, hne, h]
  · intro ρ π w st ext h1 h2 h3 h4
    constructor
    · simp [fetchItemInformation, h1, h2, runFetchBody, initialContextOf, h3, h4]
    · simp [fetchItemInformation, h1, h2, runFetchBody, initialContextOf, h3, h4]

def c6WitnessAuthEp : AuthEndpoint := fun _ _ _ => .ok ⟨some (some []), none⟩

def c6WitnessLiveEp : LiveEndpoint := fun _ => .netThrew "boom"

theorem spec_c6_partial_failure_witness :
    (dualSourceFetch true ["X"] none "en" "tok" c6WitnessAuthEp c6WitnessLiveEp).2
      = ⟨none, some "boom"⟩ :=
  ((spec_c6_partial_failure ["X"] none "en" "tok" "boom" c6WitnessAuthEp c6WitnessAuthEp
      c6WitnessLiveEp c6WitnessLiveEp 500 (by decide)).1).1 rfl (by decide)

/-! ## Claim C8 -/

/-- Claim C8: if context extraction yields zero identifiers and no override
id list was supplied, the cycle throws `No item IDs found in current
context`, which the catch block surfaces as the user-visible error while
clearing the published data (to `none`) and the item list (to `[]`),
whatever was published before. -/
theorem spec_c8_no_identifiers {ρ π : Type} (w : FetchWorld ρ π) (st : HookState ρ π)
    (ext : ExtractionResult) (h1 : w.clientPresent = true) (h2 : w.isInitialized = true)
    (h3 : w.pagesContextOutcome = .ok ext) (h4 : ext.itemIds = []) :
    fetchItemInformation w none st
      = { data := none, items := [], loading := false,
          error := some "No item IDs found in current context" } := by
  simp [fetchItemInformation, h1, h2, runFetchBody, initialContextOf, h3, h4]

def c8WitnessWorld : FetchWorld Unit Unit :=
  { clientPresent := true
    isInitialized := true
    pagesContextOutcome := .ok ⟨[], [], "", "en"⟩
    appContextOutcome := .ok none
    resolverOracle := fun _ => .responded ⟨false, fun _ => none⟩
    authEndpoint := fun _ _ _ => .ok ⟨some (some []), none⟩
    liveEndpoint := fun _ => .ok (some [])
    liveToken := "token"
    processItemData := fun _ _ _ _ _ => []
    createItemInformationResponse := fun _ => () }

/-- A previously published state, to be cleared by the fatal failure. -/
def c8WitnessState : HookState Unit Unit :=
  { data := some (), items := [()], loading := true, error := none }

theorem spec_c8_no_identifiers_witness :
    fetchItemInformation c8WitnessWorld none c8WitnessState
      = { data := none, items := [], loading := false,
          error := some "No item IDs found in current context" } :=
  spec_c8_no_identifiers c8WitnessWorld c8WitnessState ⟨[], [], "", "en"⟩ rfl rfl rfl rfl

/-! ## Claim C10 -/

/-- Claim C10: invoking `useSpecificItemsInformation`'s fetch with an empty
identifier list sets the error string to `No item IDs provided` and returns
at the guard — before touching either endpoint, as the result is the same
for every world — leaving the previously published data, items and loading
flag untouched (only the error field changes). -/
theorem spec_c10_empty_ids_guard {ρ π : Type} (w : FetchWorld ρ π) (st : HookState ρ π) :
    fetchSpecificItems w [] st = { st with error := some "No item IDs provided" } := by
  simp [fetchSpecificItems]

end PublishingStatus
